import Mathlib

/-!
Formal model of the `TypewriterEffect` class: the staggered, visibility-gated,
self-looping text animation engine of the KERNWERK-Systems repository.

The embedding is a discrete-event model of the engine:
* `Item` mirrors the per-element tracking object created in `init`
  (`fullText`, `currentText`, `isVisible`, `slideElement`, `staggerIndex`,
  `loopTimeout`); the extra flags `alive` (the DOM node still resolves) and
  `writeFails` (a sink write raises an exception, caught by the surrounding
  try/catch) model the failure cases the source guards against.
* `Engine` mirrors the class state: the tracked-element array `elements`,
  the pending-timer queue (tracked explicitly as `timers`), the
  `timeoutIds` set kept for bulk cleanup, and a `trace` recording every
  text write performed on a sink (time, element index, resulting content).
* `typeText` is the stepping function, `loopRestart` the loop-timer
  callback it schedules, `observerTrigger` the IntersectionObserver
  callback for one intersecting entry, `destroy` the teardown.
* `fireNext` fires the earliest-due pending timer (FIFO among equal due
  times), exactly as the host event loop would.

Texts are `List Char`; times are absolute `Nat` milliseconds.
-/

namespace Typewriter

/-- Constructor configuration of `TypewriterEffect` (`typingSpeed`,
`cursorChar`, `pauseDuration`, `staggerDelay`, `loopDelay`, `autoStart`).
`pauseDuration` and `autoStart` are stored but never read by the
animation logic, as in the source. -/
structure Config where
  typingSpeed : Nat
  cursorChar : List Char
  pauseDuration : Nat
  staggerDelay : Nat
  loopDelay : Nat
  autoStart : Bool
  deriving Repr, DecidableEq

/-- The two kinds of callbacks the engine schedules with `setTimeout`:
a (possibly staggered) `typeText` invocation for an element, or the
loop-restart callback armed after a whole group finished typing. -/
inductive TimerKind where
  | typeStep (idx : Nat)
  | loopFire (idx : Nat)
  deriving Repr, DecidableEq

/-- A pending timer: its handle (`id`), absolute due time, and payload. -/
structure Timer where
  id : Nat
  due : Nat
  kind : TimerKind
  deriving Repr, DecidableEq

/-- One tracked element, mirroring the object pushed onto `this.elements`
in `init`. `alive` models `item.element` being a live node; `writeFails`
models a sink write throwing (caught by the source's try/catch). -/
structure Item where
  fullText : List Char
  currentText : List Char
  isVisible : Bool
  alive : Bool
  writeFails : Bool
  slideElement : Nat
  staggerIndex : Nat
  loopTimeout : Option Nat
  deriving Repr, DecidableEq

/-- Engine state: tracked elements, pending timers, the `timeoutIds`
cleanup set, a fresh-handle counter, and the trace of sink writes, each
entry `(time, element index, resulting displayed content)`. -/
structure Engine where
  cfg : Config
  elements : List Item
  timers : List Timer
  timeoutIds : List Nat
  nextId : Nat
  trace : List (Nat × Nat × List Char)
  deriving Repr, DecidableEq

/-- `Set.add` on the `timeoutIds` set. -/
def addId (ids : List Nat) (id : Nat) : List Nat :=
  if ids.contains id then ids else ids ++ [id]

/-- Replace the tracked element at index `i`. -/
def setItem (s : Engine) (i : Nat) (e : Item) : Engine :=
  { s with elements := s.elements.set i e }

/-- Record a sink write (`textContent` mutation, including an appended
cursor span where applicable) in the trace. -/
def addTrace (s : Engine) (now i : Nat) (w : List Char) : Engine :=
  { s with trace := s.trace ++ [(now, i, w)] }

/-- `setTimeout` followed by `this.timeoutIds.add(timeoutId)`: append a
pending timer with a fresh handle and record the handle in the set.
Returns the new state and the handle. -/
def schedule (s : Engine) (due : Nat) (k : TimerKind) : Engine × Nat :=
  ({ s with
      timers := s.timers ++ [⟨s.nextId, due, k⟩],
      timeoutIds := addId s.timeoutIds s.nextId,
      nextId := s.nextId + 1 }, s.nextId)

/-- `this.elements.filter(item => item.slideElement === entry.target)`,
as the list of element indices, in registration order. -/
def slideItemsOf (s : Engine) (g : Nat) : List Nat :=
  (List.range s.elements.length).filter (fun j =>
    match s.elements[j]? with
    | some e => e.slideElement == g
    | none => false)

/-- The `slideItems.forEach` arming the loop: for each element of the
group, schedule the loop-restart callback after `loopDelay` and store its
handle in the element's `loopTimeout` (the handle is also added to
`timeoutIds`). -/
def armLoop (now : Nat) : List Nat → Engine → Engine
  | [], s => s
  | j :: rest, s =>
    let p := schedule s (now + s.cfg.loopDelay) (.loopFire j)
    let s1 :=
      match p.1.elements[j]? with
      | some e => setItem p.1 j { e with loopTimeout := some p.2 }
      | none => p.1
    armLoop now rest s1

/-- `typeText(item, slideItems)`: skip unless visible and the node is
live; while `currentText` is shorter than `fullText`, append the next
character, write `currentText` plus the cursor span, and schedule the
next step after `typingSpeed`; once full, write `fullText` without the
cursor, and if every element of the slide has reached full length and
this element's `loopTimeout` is unset, arm the loop for the whole group.
A sink write that throws (`writeFails`) is caught by the source's
try/catch: mutations made before the write remain, nothing afterwards
runs. -/
def typeText (s : Engine) (now i : Nat) : Engine :=
  match s.elements[i]? with
  | none => s
  | some item =>
    if item.isVisible = false ∨ item.alive = false then s
    else if item.currentText.length < item.fullText.length then
      let newText :=
        match item.fullText[item.currentText.length]? with
        | some c => item.currentText ++ [c]
        | none => item.currentText
      let s1 := setItem s i { item with currentText := newText }
      if item.writeFails then s1
      else
        let s2 := addTrace s1 now i (newText ++ s.cfg.cursorChar)
        (schedule s2 (now + s.cfg.typingSpeed) (.typeStep i)).1
    else
      if item.writeFails then s
      else
        let s1 := addTrace s now i item.fullText
        let group := slideItemsOf s item.slideElement
        let allDone := group.all (fun j =>
          match s.elements[j]? with
          | some e => e.currentText.length == e.fullText.length
          | none => true)
        if allDone = true ∧ item.loopTimeout = none then armLoop now group s1
        else s1

/-- The loop-restart callback scheduled in `typeText`: reset
`currentText`, clear the sink, null the `loopTimeout` marker, and
re-schedule the staggered start. A clearing write that throws leaves the
marker set and schedules nothing (that callback body has no try/catch of
its own). -/
def loopRestart (s : Engine) (now i : Nat) : Engine :=
  match s.elements[i]? with
  | none => s
  | some item =>
    let s1 := setItem s i { item with currentText := [] }
    if item.alive = false ∨ item.writeFails then s1
    else
      let s2 := addTrace s1 now i []
      let s3 := setItem s2 i { item with currentText := [], loopTimeout := none }
      (schedule s3 (now + item.staggerIndex * s.cfg.staggerDelay) (.typeStep i)).1

/-- First `forEach` of the observer callback: `clearTimeout` each
element's pending `loopTimeout` and delete the handle from `timeoutIds`.
The `loopTimeout` field itself is not reset (as in the source). -/
def clearLoops : List Nat → Engine → Engine
  | [], s => s
  | j :: rest, s =>
    let s1 :=
      match s.elements[j]? with
      | some e =>
        match e.loopTimeout with
        | some tid =>
          { s with
              timers := s.timers.filter (fun t => t.id != tid),
              timeoutIds := s.timeoutIds.filter (fun x => x != tid) }
        | none => s
      | none => s
    clearLoops rest s1

/-- Second `forEach` of the observer callback: mark each element visible,
reset `currentText`, clear the sink, and schedule the staggered start at
`staggerIndex * staggerDelay`. A throwing clear (dead node or failing
write) is caught per item; the flag and reset above it persist. -/
def startItems (now : Nat) : List Nat → Engine → Engine
  | [], s => s
  | j :: rest, s =>
    let s1 :=
      match s.elements[j]? with
      | some e =>
        let s' := setItem s j { e with isVisible := true, currentText := [] }
        if e.alive = false ∨ e.writeFails then s'
        else
          let s'' := addTrace s' now j []
          (schedule s'' (now + e.staggerIndex * s.cfg.staggerDelay) (.typeStep j)).1
      | none => s
    startItems now rest s1

/-- The IntersectionObserver callback for one entry that became
intersecting: gather the slide's elements, cancel their pending
loop-restart timers, then start them staggered. -/
def observerTrigger (s : Engine) (g now : Nat) : Engine :=
  let items := slideItemsOf s g
  startItems now items (clearLoops items s)

/-- `destroy()`: `clearTimeout` every handle in `timeoutIds` (removing
any still-pending timer with that handle; clearing a fired handle is a
no-op), then clear the set. -/
def destroy (s : Engine) : Engine :=
  { s with
      timers := s.timers.filter (fun t => !(s.timeoutIds.contains t.id)),
      timeoutIds := [] }

/-- The earliest-due pending timer; among equal due times the earliest
scheduled fires first, as in the host event loop. -/
def pickEarliest : List Timer → Option Timer
  | [] => none
  | t :: ts => some (ts.foldl (fun best u => if u.due < best.due then u else best) t)

/-- Remove a timer from the pending queue (the host does this when a
timer fires; its handle stays in `timeoutIds`). -/
def removeTimer (s : Engine) (tid : Nat) : Engine :=
  { s with timers := s.timers.filter (fun t => t.id != tid) }

/-- Dispatch a fired timer to its callback. -/
def runTimer (s : Engine) (t : Timer) : Engine :=
  match t.kind with
  | .typeStep i => typeText s t.due i
  | .loopFire i => loopRestart s t.due i

/-- Fire the next pending timer, if any. -/
def fireNext (s : Engine) : Engine :=
  match pickEarliest s.timers with
  | none => s
  | some t => runTimer (removeTimer s t.id) t

/-- Fire `n` timers in due order. -/
def runFires : Nat → Engine → Engine
  | 0, s => s
  | n + 1, s => runFires n (fireNext s)

/-- Registration-time description of one element: the directive text and
its surroundings. `alive`/`writeFails` describe the sink's later
behavior. -/
structure ItemSpec where
  fullText : List Char
  alive : Bool
  writeFails : Bool
  slideElement : Nat
  staggerIndex : Nat
  deriving Repr, DecidableEq

/-- The tracking object `init` pushes for a registered element. -/
def ItemSpec.toItem (sp : ItemSpec) : Item :=
  { fullText := sp.fullText, currentText := [], isVisible := false,
    alive := sp.alive, writeFails := sp.writeFails,
    slideElement := sp.slideElement, staggerIndex := sp.staggerIndex,
    loopTimeout := none }

/-- The engine state right after `init`: tracked elements registered, no
timers, empty handle set, nothing written yet. -/
def mkEngine (cfg : Config) (specs : List ItemSpec) : Engine :=
  { cfg := cfg, elements := specs.map ItemSpec.toItem, timers := [],
    timeoutIds := [], nextId := 0, trace := [] }

/-- A directive-bearing DOM element as seen by `init`'s scan: the
`data-typewriter` attribute value and the nearest slide/help-topic
ancestor (if any), identified by a number. -/
structure DomElem where
  value : List Char
  container : Option Nat
  deriving Repr, DecidableEq

/-- Containers in order of first appearance (iteration order of the
`slideGroups` map built in `init`). -/
def containersOf (doms : List DomElem) : List Nat :=
  doms.foldl (fun acc d =>
    match d.container with
    | some c => if acc.contains c then acc else acc ++ [c]
    | none => acc) []

/-- The registration pass of `init`: group directive-bearing elements by
container (elements with no resolvable container are dropped), then for
each group member in document order with its index, track it only when
the directive value is a non-empty string (`if (text && typeof text ===
'string')`; the empty string is falsy). The group index is assigned
before the emptiness check, so an empty-valued element still consumes a
stagger index. -/
def initElements (doms : List DomElem) : List ItemSpec :=
  ((containersOf doms).map (fun c =>
    ((doms.filter (fun d => d.container == some c)).enum.filterMap (fun p =>
      if p.2.value.isEmpty then none
      else some { fullText := p.2.value, alive := true, writeFails := false,
                  slideElement := c, staggerIndex := p.1 })))).flatten

/-- The end-to-end scenario configuration of spec §8.7:
`{typingSpeedMs: 10, staggerDelayMs: 5, loopDelayMs: 100}`. -/
def scenarioCfg : Config :=
  { typingSpeed := 10, cursorChar := ['█'], pauseDuration := 1500,
    staggerDelay := 5, loopDelay := 100, autoStart := true }

/-- One group (slide 0) with elements `"Hi"` and `"Yo"`, freshly
initialised. -/
def scenarioInit : Engine :=
  mkEngine scenarioCfg
    [{ fullText := ['H', 'i'], alive := true, writeFails := false,
       slideElement := 0, staggerIndex := 0 },
     { fullText := ['Y', 'o'], alive := true, writeFails := false,
       slideElement := 0, staggerIndex := 1 }]

/-- The scenario after the visibility trigger at `t = 0`, with `n`
timers fired in due order. -/
def scenarioRun (n : Nat) : Engine :=
  runFires n (observerTrigger scenarioInit 0 0)

/-- A one-element group (text `"A"`), used to exercise re-entry while a
loop-restart is pending. -/
def reentryInit : Engine :=
  mkEngine scenarioCfg
    [{ fullText := ['A'], alive := true, writeFails := false,
       slideElement := 0, staggerIndex := 0 }]

/-- Re-entry scenario: visibility at `t = 0`; the element types out and
the loop-restart is armed (due `t = 110`); visibility re-enters at
`t = 50`, cancelling the pending loop-restart; the element re-types and
completes at `t = 60`. -/
def reentryRun : Engine :=
  runFires 2 (observerTrigger (runFires 2 (observerTrigger reentryInit 0 0)) 0 50)

/-- Two singleton groups (slides 0 and 7), for cross-group isolation. -/
def twoGroups : Engine :=
  mkEngine scenarioCfg
    [{ fullText := ['A'], alive := true, writeFails := false,
       slideElement := 0, staggerIndex := 0 },
     { fullText := ['B'], alive := true, writeFails := false,
       slideElement := 7, staggerIndex := 0 }]

/-- A group whose first element's sink writes throw, for exercising
per-step failure isolation. -/
def failInit : Engine :=
  mkEngine scenarioCfg
    [{ fullText := ['H', 'i'], alive := true, writeFails := true,
       slideElement := 0, staggerIndex := 0 },
     { fullText := ['O', 'k'], alive := true, writeFails := false,
       slideElement := 0, staggerIndex := 1 }]

/-- `failInit` after its visibility trigger at `t = 0`. -/
def failTriggered : Engine := observerTrigger failInit 0 0

/-- States the engine can actually be in: a freshly initialised engine,
evolved by observer callbacks, timer firings, and teardown. -/
inductive Reachable (cfg : Config) : Engine → Prop where
  | boot (specs : List ItemSpec) : Reachable cfg (mkEngine cfg specs)
  | trigger (s : Engine) (g now : Nat) :
      Reachable cfg s → Reachable cfg (observerTrigger s g now)
  | fire (s : Engine) : Reachable cfg s → Reachable cfg (fireNext s)
  | teardown (s : Engine) : Reachable cfg s → Reachable cfg (destroy s)

/-- Modelled from the spec: the spec's output contract says every sink
write is either `revealedPrefix + cursorGlyph` (some prefix of the full
text followed by the cursor) or `fullText` alone. This Bool predicate is
the spec's claimed shape, to be compared against the writes the code
actually performs. -/
def specWriteShape (cursor full w : List Char) : Bool :=
  ((List.range (full.length + 1)).any (fun k => w == full.take k ++ cursor)) ||
    (w == full)

/-- The revealed text is always a prefix of the target text. -/
def prefixInv (s : Engine) : Prop :=
  ∀ (i : Nat) (e : Item), s.elements[i]? = some e → e.currentText <+: e.fullText

/-- One trace entry is a legal sink write in state `s`: the element
exists and the written content is the empty clear, the full text, or a
revealed prefix followed by the cursor glyph. -/
def traceEntryOK (s : Engine) (ent : Nat × Nat × List Char) : Prop :=
  ∃ e, s.elements[ent.2.1]? = some e ∧
    (ent.2.2 = [] ∨ ent.2.2 = e.fullText ∨
     ∃ k, k ≤ e.fullText.length ∧ ent.2.2 = e.fullText.take k ++ s.cfg.cursorChar)

/-- Every sink write ever performed is a legal write. -/
def traceInv (s : Engine) : Prop :=
  ∀ ent ∈ s.trace, traceEntryOK s ent

/-- Every pending timer's handle is recorded in the `timeoutIds` set. -/
def idsInv (s : Engine) : Prop :=
  ∀ t ∈ s.timers, t.id ∈ s.timeoutIds

/-- A pending loop-restart timer is registered in its element's
`loopTimeout` field. -/
def loopPtrOk (s : Engine) (t : Timer) : Bool :=
  match t.kind with
  | TimerKind.loopFire j =>
      (s.elements[j]?).map (fun e => e.loopTimeout) == some (some t.id)
  | TimerKind.typeStep _ => true

/-- Every pending loop-restart timer is pointed to by its element's
`loopTimeout` field (so cancelling via the field cancels them all). -/
def loopPtrInv (s : Engine) : Prop :=
  ∀ t ∈ s.timers, loopPtrOk s t = true

/-! ### Structural helper lemmas -/

theorem getElem?_some_lt {l : List Item} {i : Nat} {a : Item} (h : l[i]? = some a) :
    i < l.length := by
  by_contra hc
  rw [List.getElem?_eq_none (Nat.le_of_not_lt hc)] at h
  exact Option.noConfusion h

theorem mem_addId {ids : List Nat} {id x : Nat} :
    x ∈ addId ids id ↔ x ∈ ids ∨ x = id := by
  unfold addId
  split
  case isTrue h =>
    constructor
    · exact Or.inl
    · rintro (hx | rfl)
      · exact hx
      · exact List.elem_iff.mp h
  case isFalse h => simp [List.mem_append]

theorem setItem_get_ne (s : Engine) (i j : Nat) (e : Item) (h : i ≠ j) :
    (setItem s i e).elements[j]? = s.elements[j]? :=
  List.getElem?_set_ne h

theorem setItem_get_eq (s : Engine) (i : Nat) (e : Item)
    (h : i < s.elements.length) : (setItem s i e).elements[i]? = some e :=
  List.getElem?_set_self h

/-- Everything `armLoop` does: it leaves `cfg`, `trace` and the element
list's length alone, only appends timers (all of them loop-restarts for
members of the processed list), only rewrites `loopTimeout` fields, and
keeps every pending handle registered. -/
theorem armLoop_spec (now : Nat) (js : List Nat) :
    ∀ s : Engine,
      (armLoop now js s).cfg = s.cfg ∧
      (armLoop now js s).trace = s.trace ∧
      (armLoop now js s).elements.length = s.elements.length ∧
      (∀ t ∈ s.timers, t ∈ (armLoop now js s).timers) ∧
      (∀ t ∈ (armLoop now js s).timers,
        t ∈ s.timers ∨ ∃ j ∈ js, t.kind = TimerKind.loopFire j) ∧
      (∀ (j : Nat) (e' : Item), (armLoop now js s).elements[j]? = some e' →
        ∃ e : Item, s.elements[j]? = some e ∧
          e' = { e with loopTimeout := e'.loopTimeout }) ∧
      (idsInv s → idsInv (armLoop now js s)) := by
  induction js with
  | nil =>
    intro s
    refine ⟨rfl, rfl, rfl, fun t ht => ht, fun t ht => Or.inl ht, ?_, fun h => h⟩
    intro j e' h
    exact ⟨e', h, rfl⟩
  | cons j0 rest ih =>
    intro s
    show _ ∧ _
    rw [armLoop]
    set p := schedule s (now + s.cfg.loopDelay) (TimerKind.loopFire j0) with hp
    have hp1timers : p.1.timers = s.timers ++ [⟨s.nextId, now + s.cfg.loopDelay, TimerKind.loopFire j0⟩] := rfl
    have hp1elements : p.1.elements = s.elements := rfl
    have hp1ids : p.1.timeoutIds = addId s.timeoutIds s.nextId := rfl
    -- the state after processing j0
    rcases hmatch : p.1.elements[j0]? with _ | e0
    all_goals simp only [hmatch]
    -- j0 not a tracked index: only the timer was appended
    case none =>
      obtain ⟨hc, htr, hlen, hmono, hnew, helems, hids⟩ := ih p.1
      refine ⟨hc, htr, hlen, ?_, ?_, ?_, ?_⟩
      · intro t ht
        exact hmono t (by rw [hp1timers]; exact List.mem_append_left _ ht)
      · intro t ht
        rcases hnew t ht with h | ⟨j, hj, hk⟩
        · rw [hp1timers] at h
          rcases List.mem_append.mp h with h | h
          · exact Or.inl h
          · rcases List.mem_singleton.mp h with rfl
            exact Or.inr ⟨j0, List.mem_cons_self _ _, rfl⟩
        · exact Or.inr ⟨j, List.mem_cons_of_mem _ hj, hk⟩
      · intro j e' h
        rcases helems j e' h with ⟨e, he, hrel⟩
        rw [hp1elements] at he
        exact ⟨e, he, hrel⟩
      · intro hinv
        refine hids ?_
        intro t ht
        rw [hp1timers] at ht
        rcases List.mem_append.mp ht with h | h
        · rw [hp1ids]
          exact mem_addId.mpr (Or.inl (hinv t h))
        · rcases List.mem_singleton.mp h with rfl
          rw [hp1ids]
          exact mem_addId.mpr (Or.inr rfl)
    case some =>
      set s1 := setItem p.1 j0 { e0 with loopTimeout := some p.2 } with hs1
      obtain ⟨hc, htr, hlen, hmono, hnew, helems, hids⟩ := ih s1
      have hs1timers : s1.timers = s.timers ++ [⟨s.nextId, now + s.cfg.loopDelay, TimerKind.loopFire j0⟩] := rfl
      have hs1ids : s1.timeoutIds = addId s.timeoutIds s.nextId := rfl
      have hs1len : s1.elements.length = s.elements.length := List.length_set _ _ _
      refine ⟨hc, htr, hlen.trans hs1len, ?_, ?_, ?_, ?_⟩
      · intro t ht
        exact hmono t (by rw [hs1timers]; exact List.mem_append_left _ ht)
      · intro t ht
        rcases hnew t ht with h | ⟨j, hj, hk⟩
        · rw [hs1timers] at h
          rcases List.mem_append.mp h with h | h
          · exact Or.inl h
          · rcases List.mem_singleton.mp h with rfl
            exact Or.inr ⟨j0, List.mem_cons_self _ _, rfl⟩
        · exact Or.inr ⟨j, List.mem_cons_of_mem _ hj, hk⟩
      · intro j e' h
        rcases helems j e' h with ⟨e1, he1, hrel1⟩
        by_cases hj : j0 = j
        · subst hj
          rw [hs1, setItem_get_eq _ _ _ (by rw [hp1elements] at hmatch ⊢; exact getElem?_some_lt hmatch)] at he1
          rcases Option.some_inj.mp he1 with rfl
          rw [hp1elements] at hmatch
          exact ⟨e0, hmatch, by rw [hrel1]⟩
        · rw [hs1, setItem_get_ne _ _ _ _ hj, hp1elements] at he1
          exact ⟨e1, he1, hrel1⟩
      · intro hinv
        refine hids ?_
        intro t ht
        rw [hs1timers] at ht
        rcases List.mem_append.mp ht with h | h
        · rw [hs1ids]
          exact mem_addId.mpr (Or.inl (hinv t h))
        · rcases List.mem_singleton.mp h with rfl
          rw [hs1ids]
          exact mem_addId.mpr (Or.inr rfl)

theorem exists_getElem?_of_lt {l : List Item} {j : Nat} (h : j < l.length) :
    ∃ v : Item, l[j]? = some v :=
  ⟨l[j], List.getElem?_eq_getElem h⟩

/-- `loopPtrOk` only reads the element list. -/
theorem loopPtrOk_congr {s s' : Engine} (h : s'.elements = s.elements) (t : Timer) :
    loopPtrOk s' t = loopPtrOk s t := by
  unfold loopPtrOk
  cases t.kind <;> simp [h]

/-- `clearLoops` only removes timers and handles: elements, trace,
configuration and the handle counter are untouched, surviving timers
were already pending, and every pending handle stays registered. -/
theorem clearLoops_spec (js : List Nat) :
    ∀ s : Engine,
      (clearLoops js s).cfg = s.cfg ∧
      (clearLoops js s).elements = s.elements ∧
      (clearLoops js s).trace = s.trace ∧
      (clearLoops js s).nextId = s.nextId ∧
      (∀ t ∈ (clearLoops js s).timers, t ∈ s.timers) ∧
      (idsInv s → idsInv (clearLoops js s)) := by
  induction js with
  | nil => exact fun s => ⟨rfl, rfl, rfl, rfl, fun t ht => ht, fun h => h⟩
  | cons j0 rest ih =>
    intro s
    rw [clearLoops]
    rcases hmatch : s.elements[j0]? with _ | e0
    all_goals simp only [hmatch]
    case none => exact ih s
    case some =>
      rcases hlt : e0.loopTimeout with _ | tid
      all_goals simp only [hlt]
      case none => exact ih s
      case some =>
        set s1 : Engine :=
          { s with
              timers := s.timers.filter (fun t => t.id != tid),
              timeoutIds := s.timeoutIds.filter (fun x => x != tid) } with hs1
        obtain ⟨hc, he, htr, hn, hsub, hids⟩ := ih s1
        refine ⟨hc, he, htr, hn, ?_, ?_⟩
        · intro t ht
          exact (List.mem_filter.mp (hsub t ht)).1
        · intro hinv
          refine hids ?_
          intro t ht
          rcases List.mem_filter.mp ht with ⟨htmem, hneq⟩
          exact List.mem_filter.mpr ⟨hinv t htmem, hneq⟩

/-- Under `loopPtrInv`, the first observer `forEach` cancels every
pending loop-restart timer of the processed elements: none survives. -/
theorem clearLoops_removes (js : List Nat) :
    ∀ s : Engine, loopPtrInv s →
      ∀ t ∈ (clearLoops js s).timers, ∀ j ∈ js, t.kind ≠ TimerKind.loopFire j := by
  induction js with
  | nil =>
    intro s _ t _ j hj
    exact absurd hj (List.not_mem_nil j)
  | cons j0 rest ih =>
    intro s hptr t ht j hj hk
    rw [clearLoops] at ht
    rcases hmatch : s.elements[j0]? with _ | e0
    all_goals simp only [hmatch] at ht
    case none =>
      rcases List.mem_cons.mp hj with rfl | hj
      · have hmem : t ∈ s.timers := ((clearLoops_spec rest s).2.2.2.2.1) t ht
        have := hptr t hmem
        simp [loopPtrOk, hk, hmatch] at this
      · exact ih s hptr t ht j hj hk
    case some =>
      rcases hlt : e0.loopTimeout with _ | tid
      all_goals simp only [hlt] at ht
      case none =>
        rcases List.mem_cons.mp hj with rfl | hj
        · have hmem : t ∈ s.timers := ((clearLoops_spec rest s).2.2.2.2.1) t ht
          have := hptr t hmem
          simp [loopPtrOk, hk, hmatch, hlt] at this
        · exact ih s hptr t ht j hj hk
      case some =>
        set s1 : Engine :=
          { s with
              timers := s.timers.filter (fun t => t.id != tid),
              timeoutIds := s.timeoutIds.filter (fun x => x != tid) } with hs1
        have hptr1 : loopPtrInv s1 := by
          intro u hu
          rw [loopPtrOk_congr (show s1.elements = s.elements from rfl)]
          exact hptr u (List.mem_filter.mp hu).1
        rcases List.mem_cons.mp hj with rfl | hj
        · have hmem1 : t ∈ s1.timers := ((clearLoops_spec rest s1).2.2.2.2.1) t ht
          rcases List.mem_filter.mp hmem1 with ⟨htmem, hneq⟩
          have := hptr t htmem
          simp [loopPtrOk, hk, hmatch, hlt] at this
          simp [this] at hneq
        · exact ih s1 hptr1 t ht j hj hk

/-- Everything the second observer `forEach` does: configuration and
element count are unchanged, elements outside the processed list are
untouched, timers are only appended (all of them staggered starts for
processed elements), the write trace is only appended (all new entries
are clears of processed elements), pending handles stay registered, and
each element is either untouched or reset-and-marked-visible. -/
theorem startItems_spec (now : Nat) (js : List Nat) :
    ∀ s : Engine,
      (startItems now js s).cfg = s.cfg ∧
      (startItems now js s).elements.length = s.elements.length ∧
      (∀ j : Nat, j ∉ js → (startItems now js s).elements[j]? = s.elements[j]?) ∧
      (∀ t ∈ s.timers, t ∈ (startItems now js s).timers) ∧
      (∀ t ∈ (startItems now js s).timers,
        t ∈ s.timers ∨ ∃ j ∈ js, t.kind = TimerKind.typeStep j) ∧
      (∀ ent ∈ s.trace, ent ∈ (startItems now js s).trace) ∧
      (∀ ent ∈ (startItems now js s).trace,
        ent ∈ s.trace ∨ ∃ j ∈ js, ent = (now, j, ([] : List Char)) ∧
          ∃ e'' : Item, (startItems now js s).elements[j]? = some e'') ∧
      (idsInv s → idsInv (startItems now js s)) ∧
      (∀ (j : Nat) (e' : Item), (startItems now js s).elements[j]? = some e' →
        ∃ e : Item, s.elements[j]? = some e ∧
          (e' = e ∨ e' = { e with isVisible := true, currentText := [] })) := by
  induction js with
  | nil =>
    intro s
    refine ⟨rfl, rfl, fun j _ => rfl, fun t ht => ht, fun t ht => Or.inl ht,
      fun ent h => h, fun ent h => Or.inl h, fun h => h, ?_⟩
    intro j e' h
    exact ⟨e', h, Or.inl rfl⟩
  | cons j0 rest ih =>
    intro s
    rw [startItems]
    rcases hmatch : s.elements[j0]? with _ | e0
    all_goals simp only [hmatch]
    case none =>
      obtain ⟨hc, hlen, hfr, hmono, hnew, htrm, htrn, hids, hrel⟩ := ih s
      refine ⟨hc, hlen, ?_, hmono, ?_, htrm, ?_, hids, hrel⟩
      · intro j hj
        exact hfr j (fun h => hj (List.mem_cons_of_mem _ h))
      · intro t ht
        rcases hnew t ht with h | ⟨j, hj, hk⟩
        · exact Or.inl h
        · exact Or.inr ⟨j, List.mem_cons_of_mem _ hj, hk⟩
      · intro ent hent
        rcases htrn ent hent with h | ⟨j, hj, hk⟩
        · exact Or.inl h
        · exact Or.inr ⟨j, List.mem_cons_of_mem _ hj, hk⟩
    case some =>
      -- the state after processing j0, in the three possible shapes
      by_cases hfail : e0.alive = false ∨ e0.writeFails = true
      · have hsplit :
            (if e0.alive = false ∨ e0.writeFails = true
              then setItem s j0 { e0 with isVisible := true, currentText := [] }
              else
                (schedule
                  (addTrace (setItem s j0 { e0 with isVisible := true, currentText := [] }) now j0 [])
                  (now + e0.staggerIndex * s.cfg.staggerDelay) (TimerKind.typeStep j0)).1) =
            setItem s j0 { e0 with isVisible := true, currentText := [] } := if_pos hfail
        rw [hsplit]
        set s1 := setItem s j0 { e0 with isVisible := true, currentText := [] } with hs1
        obtain ⟨hc, hlen, hfr, hmono, hnew, htrm, htrn, hids, hrel⟩ := ih s1
        have hs1len : s1.elements.length = s.elements.length := List.length_set _ _ _
        refine ⟨hc, hlen.trans hs1len, ?_, hmono, ?_, htrm, ?_, hids, ?_⟩
        · intro j hj
          rw [hfr j (fun h => hj (List.mem_cons_of_mem _ h))]
          exact setItem_get_ne _ _ _ _ (fun h => hj (h ▸ List.mem_cons_self _ _))
        · intro t ht
          rcases hnew t ht with h | ⟨j, hj, hk⟩
          · exact Or.inl h
          · exact Or.inr ⟨j, List.mem_cons_of_mem _ hj, hk⟩
        · intro ent hent
          rcases htrn ent hent with h | ⟨j, hj, hk⟩
          · exact Or.inl h
          · exact Or.inr ⟨j, List.mem_cons_of_mem _ hj, hk⟩
        · intro j e' h
          rcases hrel j e' h with ⟨e1, he1, hrel1⟩
          by_cases hj : j0 = j
          · subst hj
            rw [hs1, setItem_get_eq _ _ _ (getElem?_some_lt hmatch)] at he1
            rcases Option.some_inj.mp he1 with rfl
            refine ⟨e0, hmatch, Or.inr ?_⟩
            rcases hrel1 with rfl | rfl
            · rfl
            · rfl
          · rw [hs1, setItem_get_ne _ _ _ _ hj] at he1
            exact ⟨e1, he1, hrel1⟩
      · have hsplit :
            (if e0.alive = false ∨ e0.writeFails = true
              then setItem s j0 { e0 with isVisible := true, currentText := [] }
              else
                (schedule
                  (addTrace (setItem s j0 { e0 with isVisible := true, currentText := [] }) now j0 [])
                  (now + e0.staggerIndex * s.cfg.staggerDelay) (TimerKind.typeStep j0)).1) =
            (schedule
              (addTrace (setItem s j0 { e0 with isVisible := true, currentText := [] }) now j0 [])
              (now + e0.staggerIndex * s.cfg.staggerDelay) (TimerKind.typeStep j0)).1 := if_neg hfail
        rw [hsplit]
        set s1 :=
          (schedule
            (addTrace (setItem s j0 { e0 with isVisible := true, currentText := [] }) now j0 [])
            (now + e0.staggerIndex * s.cfg.staggerDelay) (TimerKind.typeStep j0)).1 with hs1
        obtain ⟨hc, hlen, hfr, hmono, hnew, htrm, htrn, hids, hrel⟩ := ih s1
        have hs1timers : s1.timers =
            s.timers ++ [⟨s.nextId, now + e0.staggerIndex * s.cfg.staggerDelay,
              TimerKind.typeStep j0⟩] := rfl
        have hs1trace : s1.trace = s.trace ++ [(now, j0, ([] : List Char))] := rfl
        have hs1ids : s1.timeoutIds = addId s.timeoutIds s.nextId := rfl
        have hs1len : s1.elements.length = s.elements.length := List.length_set _ _ _
        refine ⟨hc, hlen.trans hs1len, ?_, ?_, ?_, ?_, ?_, ?_, ?_⟩
        · intro j hj
          rw [hfr j (fun h => hj (List.mem_cons_of_mem _ h))]
          exact setItem_get_ne _ _ _ _ (fun h => hj (h ▸ List.mem_cons_self _ _))
        · intro t ht
          exact hmono t (by rw [hs1timers]; exact List.mem_append_left _ ht)
        · intro t ht
          rcases hnew t ht with h | ⟨j, hj, hk⟩
          · rw [hs1timers] at h
            rcases List.mem_append.mp h with h | h
            · exact Or.inl h
            · rcases List.mem_singleton.mp h with rfl
              exact Or.inr ⟨j0, List.mem_cons_self _ _, rfl⟩
          · exact Or.inr ⟨j, List.mem_cons_of_mem _ hj, hk⟩
        · intro ent hent
          exact htrm ent (by rw [hs1trace]; exact List.mem_append_left _ hent)
        · intro ent hent
          rcases htrn ent hent with h | ⟨j, hj, hk⟩
          · rw [hs1trace] at h
            rcases List.mem_append.mp h with h | h
            · exact Or.inl h
            · rcases List.mem_singleton.mp h with rfl
              refine Or.inr ⟨j0, List.mem_cons_self _ _, rfl, ?_⟩
              refine exists_getElem?_of_lt ?_
              rw [hlen.trans hs1len]
              exact getElem?_some_lt hmatch
          · exact Or.inr ⟨j, List.mem_cons_of_mem _ hj, hk⟩
        · intro hinv
          refine hids ?_
          intro t ht
          rw [hs1timers] at ht
          rcases List.mem_append.mp ht with h | h
          · rw [hs1ids]
            exact mem_addId.mpr (Or.inl (hinv t h))
          · rcases List.mem_singleton.mp h with rfl
            rw [hs1ids]
            exact mem_addId.mpr (Or.inr rfl)
        · intro j e' h
          rcases hrel j e' h with ⟨e1, he1, hrel1⟩
          by_cases hj : j0 = j
          · subst hj
            have : s1.elements[j0]? = some { e0 with isVisible := true, currentText := [] } :=
              setItem_get_eq _ _ _ (getElem?_some_lt hmatch)
            rw [this] at he1
            rcases Option.some_inj.mp he1 with rfl
            refine ⟨e0, hmatch, Or.inr ?_⟩
            rcases hrel1 with rfl | rfl
            · rfl
            · rfl
          · have : s1.elements[j]? = s.elements[j]? := setItem_get_ne _ _ _ _ hj
            rw [this] at he1
            exact ⟨e1, he1, hrel1⟩

/-! ### `typeText` branch characterizations -/

/-- `typeText` on an untracked index does nothing. -/
theorem typeText_not_tracked {s : Engine} {now i : Nat}
    (h : s.elements[i]? = none) : typeText s now i = s := by
  simp only [typeText, h]

/-- The visibility / live-node guard: the step aborts with no effect. -/
theorem typeText_guard {s : Engine} {now i : Nat} {e : Item}
    (h : s.elements[i]? = some e) (hg : e.isVisible = false ∨ e.alive = false) :
    typeText s now i = s := by
  simp only [typeText, h, if_pos hg]

/-- The typing branch: with `currentText` a proper prefix of length `k`,
the step appends character `k`, writes the new prefix plus the cursor
(unless the write throws), and schedules the next step. -/
theorem typeText_typing {s : Engine} (now : Nat) {i : Nat} {e : Item} {k : Nat}
    (h : s.elements[i]? = some e) (hvis : e.isVisible = true)
    (halive : e.alive = true) (hcur : e.currentText = e.fullText.take k)
    (hk : k < e.fullText.length) :
    typeText s now i =
      if e.writeFails = true then
        setItem s i { e with currentText := e.fullText.take (k + 1) }
      else
        (schedule
          (addTrace (setItem s i { e with currentText := e.fullText.take (k + 1) })
            now i (e.fullText.take (k + 1) ++ s.cfg.cursorChar))
          (now + s.cfg.typingSpeed) (TimerKind.typeStep i)).1 := by
  have hlen : e.currentText.length = k := by
    rw [hcur, List.length_take]
    exact Nat.min_eq_left (Nat.le_of_lt hk)
  have hlt : e.currentText.length < e.fullText.length := by rw [hlen]; exact hk
  have hnew :
      (match e.fullText[e.currentText.length]? with
        | some c => e.currentText ++ [c]
        | none => e.currentText) = e.fullText.take (k + 1) := by
    rw [hlen, List.getElem?_eq_getElem hk, hcur, List.take_succ,
      List.getElem?_eq_getElem hk]
    rfl
  simp only [typeText, h, hvis, halive]
  rw [if_neg (by simp), if_pos hlt, hnew]

/-- The completion branch: the full text is written without the cursor
(unless the write throws), and if the whole slide has reached full
length and this element's marker is unset, the loop is armed. -/
theorem typeText_complete {s : Engine} {now i : Nat} {e : Item}
    (h : s.elements[i]? = some e) (hvis : e.isVisible = true)
    (halive : e.alive = true)
    (hfull : ¬ e.currentText.length < e.fullText.length) :
    typeText s now i =
      if e.writeFails = true then s
      else if ((slideItemsOf s e.slideElement).all (fun j =>
          match s.elements[j]? with
          | some e' => e'.currentText.length == e'.fullText.length
          | none => true)) = true ∧ e.loopTimeout = none then
        armLoop now (slideItemsOf s e.slideElement) (addTrace s now i e.fullText)
      else addTrace s now i e.fullText := by
  simp only [typeText, h, hvis, halive]
  rw [if_neg (by simp), if_neg hfull]

/-! ### Transport of the invariants across state updates -/

/-- A legal trace entry stays legal when the configuration is unchanged
and every element keeps its target text. -/
theorem traceEntryOK_transport (s s' : Engine)
    (helems : ∀ (j : Nat) (e : Item), s.elements[j]? = some e →
      ∃ e' : Item, s'.elements[j]? = some e' ∧ e'.fullText = e.fullText)
    (hcfg : s'.cfg = s.cfg)
    {ent : Nat × Nat × List Char} (h : traceEntryOK s ent) : traceEntryOK s' ent := by
  obtain ⟨e, hget, hsh⟩ := h
  obtain ⟨e', hget', hft⟩ := helems _ _ hget
  refine ⟨e', hget', ?_⟩
  rw [hft, hcfg]
  exact hsh

/-- Replacing one element with one of the same target text is a legal
transport step. -/
theorem setItem_transport {s : Engine} {i : Nat} {eOld eNew : Item}
    (hget : s.elements[i]? = some eOld) (hft : eNew.fullText = eOld.fullText) :
    ∀ (j : Nat) (e : Item), s.elements[j]? = some e →
      ∃ e' : Item, (setItem s i eNew).elements[j]? = some e' ∧
        e'.fullText = e.fullText := by
  intro j e hj
  by_cases hij : i = j
  · subst hij
    refine ⟨eNew, setItem_get_eq _ _ _ (getElem?_some_lt hget), ?_⟩
    rw [hget] at hj
    cases Option.some_inj.mp hj
    exact hft
  · refine ⟨e, ?_, rfl⟩
    rw [setItem_get_ne _ _ _ _ hij]
    exact hj

/-- The loop-restart callback when the clearing write throws: the reset
of `currentText` already happened, nothing else does. -/
theorem loopRestart_dead {s : Engine} {now i : Nat} {e : Item}
    (h : s.elements[i]? = some e) (hg : e.alive = false ∨ e.writeFails = true) :
    loopRestart s now i = setItem s i { e with currentText := [] } := by
  simp only [loopRestart, h, if_pos hg]

/-- The healthy loop-restart callback: reset, clear the sink, null the
marker, re-schedule the staggered start. -/
theorem loopRestart_ok {s : Engine} {now i : Nat} {e : Item}
    (h : s.elements[i]? = some e) (halive : e.alive = true)
    (hwf : e.writeFails = false) :
    loopRestart s now i =
      (schedule
        (setItem (addTrace (setItem s i { e with currentText := [] }) now i []) i
          { e with currentText := [], loopTimeout := none })
        (now + e.staggerIndex * s.cfg.staggerDelay) (TimerKind.typeStep i)).1 := by
  simp only [loopRestart, h]
  rw [if_neg (by simp [halive, hwf])]

/-! ### Preservation of the invariants by every operation -/

/-- `typeText` preserves the configuration, the prefix invariant, trace
legality, and handle registration. -/
theorem typeText_pres (s : Engine) (now i : Nat)
    (hpre : prefixInv s) (htr : traceInv s) (hids : idsInv s) :
    (typeText s now i).cfg = s.cfg ∧ prefixInv (typeText s now i) ∧
      traceInv (typeText s now i) ∧ idsInv (typeText s now i) := by
  rcases hmatch : s.elements[i]? with _ | e
  · rw [typeText_not_tracked hmatch]
    exact ⟨rfl, hpre, htr, hids⟩
  cases hvis : e.isVisible with
  | false =>
    rw [typeText_guard hmatch (Or.inl hvis)]
    exact ⟨rfl, hpre, htr, hids⟩
  | true =>
  cases halive : e.alive with
  | false =>
    rw [typeText_guard hmatch (Or.inr halive)]
    exact ⟨rfl, hpre, htr, hids⟩
  | true =>
  by_cases hlt : e.currentText.length < e.fullText.length
  · -- typing branch
    have hcur : e.currentText = e.fullText.take e.currentText.length :=
      List.prefix_iff_eq_take.mp (hpre i e hmatch)
    rw [typeText_typing now hmatch hvis halive hcur hlt]
    set eNew : Item :=
      { e with currentText := e.fullText.take (e.currentText.length + 1) } with heNew
    have hpre1 : prefixInv (setItem s i eNew) := by
      intro j e1 hj
      by_cases hij : i = j
      · subst hij
        rw [setItem_get_eq _ _ _ (getElem?_some_lt hmatch)] at hj
        cases Option.some_inj.mp hj
        exact List.take_prefix _ _
      · rw [setItem_get_ne _ _ _ _ hij] at hj
        exact hpre j e1 hj
    have htransp : ∀ (j : Nat) (e2 : Item), s.elements[j]? = some e2 →
        ∃ e' : Item, (setItem s i eNew).elements[j]? = some e' ∧
          e'.fullText = e2.fullText := setItem_transport hmatch rfl
    by_cases hwf : e.writeFails = true
    · rw [if_pos hwf]
      refine ⟨rfl, hpre1, ?_, ?_⟩
      · intro ent hent
        exact traceEntryOK_transport s _ htransp rfl (htr ent hent)
      · intro t ht
        exact hids t ht
    · rw [if_neg hwf]
      refine ⟨rfl, ?_, ?_, ?_⟩
      · intro j e1 hj
        exact hpre1 j e1 hj
      · intro ent hent
        rcases List.mem_append.mp hent with hent | hent
        · exact traceEntryOK_transport s _ htransp rfl (htr ent hent)
        · rcases List.mem_singleton.mp hent with rfl
          refine ⟨eNew, setItem_get_eq _ _ _ (getElem?_some_lt hmatch), ?_⟩
          exact Or.inr (Or.inr ⟨e.currentText.length + 1, Nat.succ_le_of_lt hlt, rfl⟩)
      · intro t ht
        rcases List.mem_append.mp ht with ht | ht
        · exact mem_addId.mpr (Or.inl (hids t ht))
        · rcases List.mem_singleton.mp ht with rfl
          exact mem_addId.mpr (Or.inr rfl)
  · -- completion branch
    rw [typeText_complete hmatch hvis halive hlt]
    by_cases hwf : e.writeFails = true
    · rw [if_pos hwf]
      exact ⟨rfl, hpre, htr, hids⟩
    · rw [if_neg hwf]
      have hnewOK : traceEntryOK (addTrace s now i e.fullText) (now, i, e.fullText) :=
        ⟨e, hmatch, Or.inr (Or.inl rfl)⟩
      have htrA : traceInv (addTrace s now i e.fullText) := by
        intro ent hent
        rcases List.mem_append.mp hent with hent | hent
        · exact htr ent hent
        · rcases List.mem_singleton.mp hent with rfl
          exact hnewOK
      by_cases harm :
          ((slideItemsOf s e.slideElement).all (fun j =>
            match s.elements[j]? with
            | some e' => e'.currentText.length == e'.fullText.length
            | none => true)) = true ∧ e.loopTimeout = none
      · rw [if_pos harm]
        set sA := addTrace s now i e.fullText with hsA
        obtain ⟨hc, htrEq, hlenEq, _, _, hrel, hidsA⟩ :=
          armLoop_spec now (slideItemsOf s e.slideElement) sA
        refine ⟨hc, ?_, ?_, ?_⟩
        · intro j e1 hj
          rcases hrel j e1 hj with ⟨e2, he2, hrel2⟩
          have := hpre j e2 he2
          rw [hrel2]
          exact this
        · intro ent hent
          rw [htrEq] at hent
          refine traceEntryOK_transport sA _ ?_ hc (htrA ent hent)
          intro j e2 hj2
          obtain ⟨e1, he1⟩ := exists_getElem?_of_lt
            (by rw [hlenEq]; exact getElem?_some_lt hj2)
          rcases hrel j e1 he1 with ⟨e2', he2', hrel2⟩
          rw [hj2] at he2'
          cases Option.some_inj.mp he2'
          refine ⟨e1, he1, ?_⟩
          rw [hrel2]
        · exact hidsA (fun t ht => hids t ht)
      · rw [if_neg harm]
        refine ⟨rfl, hpre, htrA, ?_⟩
        intro t ht
        exact hids t ht

/-- The loop-restart callback preserves the invariants. -/
theorem loopRestart_pres (s : Engine) (now i : Nat)
    (hpre : prefixInv s) (htr : traceInv s) (hids : idsInv s) :
    (loopRestart s now i).cfg = s.cfg ∧ prefixInv (loopRestart s now i) ∧
      traceInv (loopRestart s now i) ∧ idsInv (loopRestart s now i) := by
  rcases hmatch : s.elements[i]? with _ | e
  · have : loopRestart s now i = s := by simp only [loopRestart, hmatch]
    rw [this]
    exact ⟨rfl, hpre, htr, hids⟩
  by_cases hg : e.alive = false ∨ e.writeFails = true
  · rw [loopRestart_dead hmatch hg]
    refine ⟨rfl, ?_, ?_, fun t ht => hids t ht⟩
    · intro j e1 hj
      by_cases hij : i = j
      · subst hij
        rw [setItem_get_eq _ _ _ (getElem?_some_lt hmatch)] at hj
        cases Option.some_inj.mp hj
        exact List.nil_prefix
      · rw [setItem_get_ne _ _ _ _ hij] at hj
        exact hpre j e1 hj
    · intro ent hent
      refine traceEntryOK_transport s _ ?_ ?_ (htr ent hent)
      · exact setItem_transport hmatch rfl
      · rfl
  · push_neg at hg
    have halive : e.alive = true := by
      rcases hg with ⟨h1, _⟩
      cases h : e.alive
      · exact absurd h h1
      · rfl
    have hwf : e.writeFails = false := by
      rcases hg with ⟨_, h2⟩
      cases h : e.writeFails
      · rfl
      · exact absurd h h2
    rw [loopRestart_ok hmatch halive hwf]
    have hlen1 : (setItem s i { e with currentText := [] }).elements.length =
        s.elements.length := List.length_set _ _ _
    refine ⟨rfl, ?_, ?_, ?_⟩
    · intro j e1 hj
      by_cases hij : i = j
      · subst hij
        rw [show ((schedule
            (setItem (addTrace (setItem s i { e with currentText := [] }) now i []) i
              { e with currentText := [], loopTimeout := none })
            (now + e.staggerIndex * s.cfg.staggerDelay) (TimerKind.typeStep i)).1).elements
            = (s.elements.set i { e with currentText := [] }).set i
                { e with currentText := [], loopTimeout := none } from rfl] at hj
        rw [List.getElem?_set_self (by rw [List.length_set]; exact getElem?_some_lt hmatch)] at hj
        cases Option.some_inj.mp hj
        exact List.nil_prefix
      · rw [show ((schedule
            (setItem (addTrace (setItem s i { e with currentText := [] }) now i []) i
              { e with currentText := [], loopTimeout := none })
            (now + e.staggerIndex * s.cfg.staggerDelay) (TimerKind.typeStep i)).1).elements
            = (s.elements.set i { e with currentText := [] }).set i
                { e with currentText := [], loopTimeout := none } from rfl,
          List.getElem?_set_ne hij, List.getElem?_set_ne hij] at hj
        exact hpre j e1 hj
    · intro ent hent
      have htransp : ∀ (j : Nat) (e2 : Item), s.elements[j]? = some e2 →
          ∃ e' : Item, ((schedule
            (setItem (addTrace (setItem s i { e with currentText := [] }) now i []) i
              { e with currentText := [], loopTimeout := none })
            (now + e.staggerIndex * s.cfg.staggerDelay)
            (TimerKind.typeStep i)).1).elements[j]? = some e' ∧
            e'.fullText = e2.fullText := by
        intro j e2 hj2
        by_cases hij : i = j
        · subst hij
          refine ⟨{ e with currentText := [], loopTimeout := none }, ?_, ?_⟩
          · rw [show ((schedule
                (setItem (addTrace (setItem s i { e with currentText := [] }) now i []) i
                  { e with currentText := [], loopTimeout := none })
                (now + e.staggerIndex * s.cfg.staggerDelay)
                (TimerKind.typeStep i)).1).elements
                = (s.elements.set i { e with currentText := [] }).set i
                    { e with currentText := [], loopTimeout := none } from rfl]
            exact List.getElem?_set_self (by rw [List.length_set]; exact getElem?_some_lt hmatch)
          · rw [hmatch] at hj2
            cases Option.some_inj.mp hj2
            rfl
        · refine ⟨e2, ?_, rfl⟩
          rw [show ((schedule
              (setItem (addTrace (setItem s i { e with currentText := [] }) now i []) i
                { e with currentText := [], loopTimeout := none })
              (now + e.staggerIndex * s.cfg.staggerDelay)
              (TimerKind.typeStep i)).1).elements
              = (s.elements.set i { e with currentText := [] }).set i
                  { e with currentText := [], loopTimeout := none } from rfl,
            List.getElem?_set_ne hij, List.getElem?_set_ne hij]
          exact hj2
      rcases List.mem_append.mp hent with hent | hent
      · exact traceEntryOK_transport s _ htransp rfl (htr ent hent)
      · rcases List.mem_singleton.mp hent with rfl
        obtain ⟨e', he', _⟩ := htransp i e hmatch
        exact ⟨e', he', Or.inl rfl⟩
    · intro t ht
      rcases List.mem_append.mp ht with ht | ht
      · exact mem_addId.mpr (Or.inl (hids t ht))
      · rcases List.mem_singleton.mp ht with rfl
        exact mem_addId.mpr (Or.inr rfl)

/-- The observer callback preserves the invariants. -/
theorem observerTrigger_pres (s : Engine) (g now : Nat)
    (hpre : prefixInv s) (htr : traceInv s) (hids : idsInv s) :
    (observerTrigger s g now).cfg = s.cfg ∧ prefixInv (observerTrigger s g now) ∧
      traceInv (observerTrigger s g now) ∧ idsInv (observerTrigger s g now) := by
  unfold observerTrigger
  obtain ⟨hcC, heC, htrC, hnC, hsubC, hidsC⟩ := clearLoops_spec (slideItemsOf s g) s
  set mid := clearLoops (slideItemsOf s g) s with hmid
  obtain ⟨hcS, hlenS, hfrS, hmonoS, hnewS, htrmS, htrnS, hidsS, hrelS⟩ :=
    startItems_spec now (slideItemsOf s g) mid
  have hpreM : prefixInv mid := by
    intro j e hj
    rw [heC] at hj
    exact hpre j e hj
  have htrM : traceInv mid := by
    intro ent hent
    rw [htrC] at hent
    refine traceEntryOK_transport s mid ?_ hcC (htr ent hent)
    intro j e hj
    refine ⟨e, ?_, rfl⟩
    rw [heC]
    exact hj
  have hidsM : idsInv mid := hidsC hids
  refine ⟨hcS.trans hcC, ?_, ?_, hidsS hidsM⟩
  · intro j e1 hj
    rcases hrelS j e1 hj with ⟨e0, he0, hrel0⟩
    have hp0 := hpreM j e0 he0
    rcases hrel0 with rfl | rfl
    · exact hp0
    · exact List.nil_prefix
  · intro ent hent
    rcases htrnS ent hent with hent | ⟨j, hjmem, hEq, e2, he2⟩
    · refine traceEntryOK_transport mid _ ?_ hcS (htrM ent hent)
      intro j e hj
      obtain ⟨e1, he1⟩ := exists_getElem?_of_lt
        (by rw [hlenS]; exact getElem?_some_lt hj)
      rcases hrelS j e1 he1 with ⟨e0, he0, hrel0⟩
      rw [hj] at he0
      cases Option.some_inj.mp he0
      refine ⟨e1, he1, ?_⟩
      rcases hrel0 with rfl | rfl
      · rfl
      · rfl
    · subst hEq
      exact ⟨e2, he2, Or.inl rfl⟩

/-- `destroy` preserves the invariants (and empties the pending queue,
since every pending handle was registered). -/
theorem destroy_pres (s : Engine)
    (hpre : prefixInv s) (htr : traceInv s) (hids : idsInv s) :
    (destroy s).cfg = s.cfg ∧ prefixInv (destroy s) ∧ traceInv (destroy s) ∧
      idsInv (destroy s) := by
  refine ⟨rfl, fun j e hj => hpre j e hj, fun ent hent => htr ent hent, ?_⟩
  intro t ht
  rcases List.mem_filter.mp ht with ⟨hmem, hnot⟩
  exfalso
  have hin := hids t hmem
  rw [Bool.not_eq_true', ← Bool.not_eq_true] at hnot
  exact hnot (List.elem_iff.mpr hin)

/-- Firing one timer preserves the invariants. -/
theorem fireNext_pres (s : Engine)
    (hpre : prefixInv s) (htr : traceInv s) (hids : idsInv s) :
    (fireNext s).cfg = s.cfg ∧ prefixInv (fireNext s) ∧ traceInv (fireNext s) ∧
      idsInv (fireNext s) := by
  rcases hp : pickEarliest s.timers with _ | t
  · have hid : fireNext s = s := by unfold fireNext; rw [hp]
    rw [hid]
    exact ⟨rfl, hpre, htr, hids⟩
  · have hstep : fireNext s = runTimer (removeTimer s t.id) t := by
      unfold fireNext
      rw [hp]
    have hpreR : prefixInv (removeTimer s t.id) := fun j e hj => hpre j e hj
    have htrR : traceInv (removeTimer s t.id) := fun ent hent => htr ent hent
    have hidsR : idsInv (removeTimer s t.id) := by
      intro u hu
      exact hids u (List.mem_filter.mp hu).1
    cases hkind : t.kind with
    | typeStep i =>
      have h2 : runTimer (removeTimer s t.id) t = typeText (removeTimer s t.id) t.due i := by
        unfold runTimer
        rw [hkind]
      rw [hstep, h2]
      exact typeText_pres (removeTimer s t.id) t.due i hpreR htrR hidsR
    | loopFire i =>
      have h2 : runTimer (removeTimer s t.id) t = loopRestart (removeTimer s t.id) t.due i := by
        unfold runTimer
        rw [hkind]
      rw [hstep, h2]
      exact loopRestart_pres (removeTimer s t.id) t.due i hpreR htrR hidsR

/-- A freshly initialised engine satisfies the invariants. -/
theorem mkEngine_inv (cfg : Config) (specs : List ItemSpec) :
    (mkEngine cfg specs).cfg = cfg ∧ prefixInv (mkEngine cfg specs) ∧
      traceInv (mkEngine cfg specs) ∧ idsInv (mkEngine cfg specs) := by
  refine ⟨rfl, ?_, ?_, ?_⟩
  · intro j e hj
    rw [show (mkEngine cfg specs).elements = specs.map ItemSpec.toItem from rfl,
      List.getElem?_map] at hj
    rcases hsp : specs[j]? with _ | sp
    · rw [hsp] at hj
      exact Option.noConfusion hj
    · rw [hsp] at hj
      cases Option.some_inj.mp hj
      exact List.nil_prefix
  · intro ent hent
    exact absurd hent (List.not_mem_nil ent)
  · intro t ht
    exact absurd ht (List.not_mem_nil t)

/-- Master invariant: every reachable engine state keeps its
configuration, reveals only prefixes, writes only legal content to the
sinks, and registers every pending timer handle. -/
theorem engineInv {cfg : Config} {s : Engine} (h : Reachable cfg s) :
    s.cfg = cfg ∧ prefixInv s ∧ traceInv s ∧ idsInv s := by
  induction h with
  | boot specs => exact mkEngine_inv cfg specs
  | trigger s g now _ ih =>
    obtain ⟨hc, hp, ht, hi⟩ := ih
    obtain ⟨hc2, hp2, ht2, hi2⟩ := observerTrigger_pres s g now hp ht hi
    exact ⟨hc2.trans hc, hp2, ht2, hi2⟩
  | fire s _ ih =>
    obtain ⟨hc, hp, ht, hi⟩ := ih
    obtain ⟨hc2, hp2, ht2, hi2⟩ := fireNext_pres s hp ht hi
    exact ⟨hc2.trans hc, hp2, ht2, hi2⟩
  | teardown s _ ih =>
    obtain ⟨hc, hp, ht, hi⟩ := ih
    obtain ⟨hc2, hp2, ht2, hi2⟩ := destroy_pres s hp ht hi
    exact ⟨hc2.trans hc, hp2, ht2, hi2⟩

/-- Firing any number of timers preserves reachability. -/
theorem reachable_runFires {cfg : Config} (n : Nat) :
    ∀ s : Engine, Reachable cfg s → Reachable cfg (runFires n s) := by
  induction n with
  | zero => exact fun s h => h
  | succ n ih =>
    intro s h
    rw [runFires]
    exact ih (fireNext s) (Reachable.fire s h)

/-- Every state of the `["Hi", "Yo"]` scenario run is reachable. -/
theorem scenarioRun_reachable (n : Nat) :
    Reachable scenarioCfg (scenarioRun n) :=
  reachable_runFires n (observerTrigger scenarioInit 0 0)
    (Reachable.trigger scenarioInit 0 0 (Reachable.boot _))

/-- Membership in a slide's item list means: tracked, same container. -/
theorem mem_slideItemsOf {s : Engine} {g j : Nat} :
    j ∈ slideItemsOf s g ↔
      ∃ e : Item, s.elements[j]? = some e ∧ e.slideElement = g := by
  unfold slideItemsOf
  rw [List.mem_filter, List.mem_range]
  constructor
  · rintro ⟨hlt, hpred⟩
    rcases hm : s.elements[j]? with _ | e
    · rw [hm] at hpred
      simp at hpred
    · rw [hm] at hpred
      simp at hpred
      exact ⟨e, rfl, hpred⟩
  · rintro ⟨e, he, hs⟩
    refine ⟨getElem?_some_lt he, ?_⟩
    rw [he]
    simp [hs]

theorem slideItemsOf_nodup (s : Engine) (g : Nat) : (slideItemsOf s g).Nodup :=
  (List.nodup_range _).filter _

/-- The per-member effect of the second observer `forEach`: each live,
non-throwing member of the processed (duplicate-free) list is reset,
marked visible, its sink cleared, and given a start timer at its stagger
delay. -/
theorem startItems_member (now : Nat) (js : List Nat) :
    ∀ s : Engine, js.Nodup →
      ∀ j ∈ js, ∀ e : Item, s.elements[j]? = some e →
        e.alive = true → e.writeFails = false →
        (startItems now js s).elements[j]? =
            some { e with isVisible := true, currentText := [] } ∧
        (now, j, ([] : List Char)) ∈ (startItems now js s).trace ∧
        ∃ t ∈ (startItems now js s).timers,
          t.kind = TimerKind.typeStep j ∧
          t.due = now + e.staggerIndex * s.cfg.staggerDelay := by
  induction js with
  | nil =>
    intro s _ j hj
    exact absurd hj (List.not_mem_nil j)
  | cons j0 rest ih =>
    intro s hnd j hj e hget halive hwf
    have hnd0 : j0 ∉ rest := (List.nodup_cons.mp hnd).1
    have hndr : rest.Nodup := (List.nodup_cons.mp hnd).2
    rcases List.mem_cons.mp hj with rfl | hjr
    · -- the head element itself
      rw [startItems]
      simp only [hget]
      rw [if_neg (by simp [halive, hwf])]
      set s1 :=
        (schedule
          (addTrace (setItem s j (Item.mk e.fullText [] true e.alive e.writeFails
            e.slideElement e.staggerIndex e.loopTimeout)) now j [])
          (now + e.staggerIndex * s.cfg.staggerDelay) (TimerKind.typeStep j)).1 with hs1
      obtain ⟨_, _, hfrS, hmonoS, _, htrmS, _, _, _⟩ := startItems_spec now rest s1
      refine ⟨?_, ?_, ?_⟩
      · rw [hfrS j hnd0]
        exact setItem_get_eq _ _ _ (getElem?_some_lt hget)
      · refine htrmS _ ?_
        exact List.mem_append_right _ (List.mem_singleton.mpr rfl)
      · refine ⟨⟨s.nextId, now + e.staggerIndex * s.cfg.staggerDelay,
          TimerKind.typeStep j⟩, ?_, rfl, rfl⟩
        refine hmonoS _ ?_
        exact List.mem_append_right _ (List.mem_singleton.mpr rfl)
    · -- an element further down the list
      have hne : j0 ≠ j := fun h => hnd0 (h ▸ hjr)
      have hstep : ∃ s1 : Engine,
          startItems now (j0 :: rest) s = startItems now rest s1 ∧
          s1.elements[j]? = s.elements[j]? ∧ s1.cfg = s.cfg := by
        rw [startItems]
        rcases hm0 : s.elements[j0]? with _ | e0
        all_goals simp only [hm0]
        · exact ⟨s, rfl, rfl, rfl⟩
        · by_cases hh : e0.alive = false ∨ e0.writeFails = true
          · rw [if_pos hh]
            exact ⟨_, rfl, setItem_get_ne _ _ _ _ hne, rfl⟩
          · rw [if_neg hh]
            exact ⟨_, rfl, setItem_get_ne _ _ _ _ hne, rfl⟩
      rcases hstep with ⟨s1, hEq, hel, hcfg⟩
      rw [hEq]
      obtain ⟨h1, h2, t, ht, hk, hd⟩ :=
        ih s1 hndr j hjr e (by rw [hel]; exact hget) halive hwf
      refine ⟨h1, h2, t, ht, hk, ?_⟩
      rw [hd, hcfg]

/-- Iterating the typing step: starting from a revealed prefix of
length `k`, `n` further healthy steps reveal exactly the prefix of
length `k + n`, character by character. -/
theorem typeText_iter (now i : Nat) :
    ∀ (n k : Nat) (s : Engine) (e : Item),
      s.elements[i]? = some e → e.isVisible = true → e.alive = true →
      e.writeFails = false → e.currentText = e.fullText.take k →
      k + n ≤ e.fullText.length →
      ((fun st => typeText st now i)^[n] s).elements[i]? =
        some { e with currentText := e.fullText.take (k + n) } := by
  intro n
  induction n with
  | zero =>
    intro k s e hget hvis halive hwf hcur hle
    rw [Function.iterate_zero_apply, hget]
    cases e
    simp_all
  | succ n ih =>
    intro k s e hget hvis halive hwf hcur hle
    have hk : k < e.fullText.length := by omega
    rw [Function.iterate_succ_apply]
    have hstep := typeText_typing now hget hvis halive hcur hk
    rw [if_neg (by rw [hwf]; exact Bool.false_ne_true)] at hstep
    show ((fun st => typeText st now i)^[n] (typeText s now i)).elements[i]? = _
    rw [hstep]
    have hget1 :
        ((schedule
          (addTrace (setItem s i { e with currentText := e.fullText.take (k + 1) })
            now i (e.fullText.take (k + 1) ++ s.cfg.cursorChar))
          (now + s.cfg.typingSpeed) (TimerKind.typeStep i)).1).elements[i]? =
        some { e with currentText := e.fullText.take (k + 1) } :=
      setItem_get_eq _ _ _ (getElem?_some_lt hget)
    have hres := ih (k + 1) _ { e with currentText := e.fullText.take (k + 1) }
      hget1 hvis halive hwf rfl (by show k + 1 + n ≤ e.fullText.length; omega)
    rw [hres]
    have harith : k + 1 + n = k + (n + 1) := by omega
    rw [harith]

/-- The typing branch when the write throws: `currentText` was already
extended, nothing else happens (no write, no reschedule). -/
theorem typeText_typing_fail_raw {s : Engine} {now i : Nat} {e : Item}
    (hget : s.elements[i]? = some e) (hvis : e.isVisible = true)
    (halive : e.alive = true)
    (hlt : e.currentText.length < e.fullText.length)
    (hwf : e.writeFails = true) :
    typeText s now i = setItem s i { e with currentText :=
      match e.fullText[e.currentText.length]? with
      | some c => e.currentText ++ [c]
      | none => e.currentText } := by
  simp only [typeText, hget, hvis, halive]
  rw [if_neg (by simp), if_pos hlt, if_pos hwf]

/-- The completion branch when the write throws: nothing happens at
all. -/
theorem typeText_complete_fail_raw {s : Engine} {now i : Nat} {e : Item}
    (hget : s.elements[i]? = some e) (hvis : e.isVisible = true)
    (halive : e.alive = true)
    (hfull : ¬ e.currentText.length < e.fullText.length)
    (hwf : e.writeFails = true) :
    typeText s now i = s := by
  rw [typeText_complete hget hvis halive hfull, if_pos hwf]

/-! ### The claims -/

set_option maxHeartbeats 2000000 in
/-- Claim C1: in the one-element re-entry scenario the first cycle does
arm a loop-restart (pending, due `t = 110`), but after visibility
re-enters at `t = 50` — cancelling that timer without resetting the
element's `loopTimeout` marker — and the element finishes re-typing at
`t = 60`, every element of the group is at full length yet no
loop-restart timer exists and none is ever armed again: the stale marker
`some 2` suppresses the `allDone && !item.loopTimeout` guard forever.
This refutes "after a group completes typing in any cycle — including a
cycle started by re-entering visibility — loop-restart timers are armed
exactly once for all members". -/
theorem C1_loop_not_rearmed_after_reentry :
    (runFires 2 (observerTrigger reentryInit 0 0)).timers =
      [⟨2, 110, TimerKind.loopFire 0⟩] ∧
    reentryRun.elements[0]?.map (fun e => e.currentText) = some ['A'] ∧
    reentryRun.elements[0]?.map (fun e => e.fullText) = some ['A'] ∧
    reentryRun.elements[0]?.map (fun e => e.loopTimeout) = some (some 2) ∧
    reentryRun.timers = [] := by
  decide

set_option maxHeartbeats 2000000 in
/-- Claim C2 (counterexample): the first character write for element 0
happens at `t = 0` (its stagger delay is `0 * 5`), not at `t = 5` as the
claimed timeline says. -/
theorem C2_counterexample_first_write :
    ((scenarioRun 6).trace.filter
        (fun ent => ent.2.1 == 0 && !ent.2.2.isEmpty)).head? =
      some (0, 0, ['H', '█']) ∧ (0 : Nat) ≠ 5 := by
  decide

set_option maxHeartbeats 2000000 in
/-- Claim C2 (amended): the actual timeline of the `["Hi", "Yo"]`
scenario. Clears at `t = 0`; element 0's characters at `t = 0` and
`t = 10` (with cursor), element 1's at `t = 5` and `t = 15`; the
cursor-free completion writes at `t = 20` and `t = 25`; the loop-restarts
are armed during element 0's completion tick at `t = 20`, due
`t = 120` for both; when they fire both sinks are cleared and the
staggered starts are re-scheduled at `t = 120 + 0` and `t = 120 + 5`. -/
theorem C2_actual_timeline :
    (scenarioRun 6).trace =
      [(0, 0, []), (0, 1, []), (0, 0, ['H', '█']), (5, 1, ['Y', '█']),
       (10, 0, ['H', 'i', '█']), (15, 1, ['Y', 'o', '█']),
       (20, 0, ['H', 'i']), (25, 1, ['Y', 'o'])] ∧
    (scenarioRun 6).timers =
      [⟨6, 120, TimerKind.loopFire 0⟩, ⟨7, 120, TimerKind.loopFire 1⟩] ∧
    (scenarioRun 8).timers =
      [⟨8, 120, TimerKind.typeStep 0⟩, ⟨9, 125, TimerKind.typeStep 1⟩] ∧
    (scenarioRun 8).trace =
      (scenarioRun 6).trace ++ [(120, 0, []), (120, 1, [])] := by
  decide

set_option maxHeartbeats 2000000 in
/-- Claim C4 (counterexample): after the first timer (handle 0) fires,
its handle is still in `timeoutIds` although no pending timer carries
it — handles are never removed when a timer fires. -/
theorem C4_counterexample_fired_handle_remains :
    (0 : Nat) ∈ (scenarioRun 1).timeoutIds ∧
    (∀ t ∈ (scenarioRun 1).timers, t.id ≠ 0) := by
  decide

/-- Claim C4 (amended): in every reachable engine state, every pending
timer's handle is in the `timeoutIds` set (add-on-schedule,
remove-on-cancel); fired handles stay in the set until teardown, which
is harmless because cancelling a fired handle is a no-op. -/
theorem C4_pending_handles_registered :
    ∀ (cfg : Config) (s : Engine), Reachable cfg s →
      ∀ t ∈ s.timers, t.id ∈ s.timeoutIds :=
  fun _ _ h => (engineInv h).2.2.2

/-- Witness for C4: a concrete pending timer of a reachable state after
one fired timer has its handle registered. -/
theorem C4_witness :
    (⟨1, 5, TimerKind.typeStep 1⟩ : Timer).id ∈ (scenarioRun 1).timeoutIds :=
  C4_pending_handles_registered scenarioCfg (scenarioRun 1) (scenarioRun_reachable 1)
    ⟨1, 5, TimerKind.typeStep 1⟩ (by decide)

set_option maxHeartbeats 2000000 in
/-- Claim C7 (counterexample): the reset at the visibility trigger
writes the empty string to the sink, which is neither a revealed prefix
followed by the cursor glyph nor the full text alone — the spec's
two-shape write contract misses the clearing writes. -/
theorem C7_counterexample_clear_write :
    (0, 0, ([] : List Char)) ∈ (scenarioRun 0).trace ∧
    (scenarioRun 0).elements[0]?.map (fun e => e.fullText) = some ['H', 'i'] ∧
    specWriteShape ['█'] ['H', 'i'] [] = false := by
  decide

/-- Claim C7 (amended): every sink write the engine ever performs, in
any reachable state, is the empty clear, the full text alone (no
cursor), or the currently revealed prefix followed by the cursor glyph;
all writes go through the plain-text sink, never markup. -/
theorem C7_write_shapes :
    ∀ (cfg : Config) (s : Engine), Reachable cfg s →
      ∀ ent ∈ s.trace, ∃ e : Item, s.elements[ent.2.1]? = some e ∧
        (ent.2.2 = [] ∨ ent.2.2 = e.fullText ∨
         ∃ k, k ≤ e.fullText.length ∧
           ent.2.2 = e.fullText.take k ++ s.cfg.cursorChar) :=
  fun _ _ h => (engineInv h).2.2.1

/-- Witness for C7: the completion write of element 0 at `t = 20`. -/
theorem C7_witness :
    ∃ e : Item, (scenarioRun 6).elements[(20, 0, ['H', 'i']).2.1]? = some e ∧
      ((20, 0, ['H', 'i']).2.2 = [] ∨ (20, 0, ['H', 'i']).2.2 = e.fullText ∨
       ∃ k, k ≤ e.fullText.length ∧
         (20, 0, ['H', 'i']).2.2 = e.fullText.take k ++ (scenarioRun 6).cfg.cursorChar) :=
  C7_write_shapes scenarioCfg (scenarioRun 6) (scenarioRun_reachable 6)
    (20, 0, ['H', 'i']) (by decide)

/-- Claim C8: `destroy` empties the pending-timer queue whenever every
pending handle is registered (which holds in every reachable state),
clears the handle set, is idempotent, and is a no-op on an engine that
never scheduled a timer. -/
theorem C8_destroy_idempotent :
    (∀ s : Engine, (∀ t ∈ s.timers, t.id ∈ s.timeoutIds) →
      (destroy s).timers = [] ∧ (destroy s).timeoutIds = []) ∧
    (∀ s : Engine, destroy (destroy s) = destroy s) ∧
    (∀ (cfg : Config) (specs : List ItemSpec),
      destroy (mkEngine cfg specs) = mkEngine cfg specs) := by
  refine ⟨?_, ?_, ?_⟩
  · intro s h
    refine ⟨List.filter_eq_nil_iff.mpr ?_, rfl⟩
    intro t ht
    rw [Bool.not_eq_true, Bool.not_eq_false']
    exact List.elem_iff.mpr (h t ht)
  · intro s
    unfold destroy
    congr 1
    apply List.filter_eq_self.mpr
    intro t _
    rfl
  · intro cfg specs
    rfl

set_option maxHeartbeats 2000000 in
/-- Witness for C8: destroying the scenario state after its full first
cycle leaves zero pending timers and an empty handle set. -/
theorem C8_witness :
    (destroy (scenarioRun 6)).timers = [] ∧
    (destroy (scenarioRun 6)).timeoutIds = [] :=
  C8_destroy_idempotent.1 (scenarioRun 6) (by decide)

/-- Claim C3: on a visibility trigger for group `g` (in a state whose
pending loop-restart timers are pointed to by their elements'
`loopTimeout` markers, as the engine maintains), no pending loop-restart
of any group member survives, and every live, non-throwing member is
reset to the empty prefix, its sink cleared, marked visible, and given a
start timer at `staggerIndex * staggerDelay`. -/
theorem C3_retrigger_resets :
    ∀ (s : Engine) (g now : Nat), loopPtrInv s →
      (∀ t ∈ (observerTrigger s g now).timers, ∀ j ∈ slideItemsOf s g,
        t.kind ≠ TimerKind.loopFire j) ∧
      (∀ j ∈ slideItemsOf s g, ∀ e : Item, s.elements[j]? = some e →
        e.alive = true → e.writeFails = false →
        (observerTrigger s g now).elements[j]? =
            some { e with isVisible := true, currentText := [] } ∧
        (now, j, ([] : List Char)) ∈ (observerTrigger s g now).trace ∧
        ∃ t ∈ (observerTrigger s g now).timers,
          t.kind = TimerKind.typeStep j ∧
          t.due = now + e.staggerIndex * s.cfg.staggerDelay) := by
  intro s g now hptr
  simp only [observerTrigger]
  obtain ⟨hcC, heC, htrC, hnC, hsubC, hidsC⟩ := clearLoops_spec (slideItemsOf s g) s
  constructor
  · intro t ht j hj hk
    obtain ⟨_, _, _, _, hnewS, _, _, _, _⟩ :=
      startItems_spec now (slideItemsOf s g) (clearLoops (slideItemsOf s g) s)
    rcases hnewS t ht with hmid | ⟨j', _, hk'⟩
    · exact clearLoops_removes (slideItemsOf s g) s hptr t hmid j hj hk
    · rw [hk] at hk'
      exact TimerKind.noConfusion hk'
  · intro j hj e hget halive hwf
    obtain ⟨h1, h2, t, ht, hk, hd⟩ :=
      startItems_member now (slideItemsOf s g) (clearLoops (slideItemsOf s g) s)
        (slideItemsOf_nodup s g) j hj e (by rw [heC]; exact hget) halive hwf
    refine ⟨h1, h2, t, ht, hk, ?_⟩
    rw [hd, hcC]

set_option maxHeartbeats 2000000 in
/-- Witness for C3: re-triggering the `["Hi", "Yo"]` group at `t = 200`
while both loop-restarts are pending, instantiated at element 0 and the
fresh start timer the trigger schedules for it. -/
theorem C3_witness :
    (⟨8, 200, TimerKind.typeStep 0⟩ : Timer).kind ≠ TimerKind.loopFire 0 ∧
    ((observerTrigger (scenarioRun 6) 0 200).elements[0]? =
        some (Item.mk ['H', 'i'] [] true true false 0 0 (some 6)) ∧
      (200, 0, ([] : List Char)) ∈ (observerTrigger (scenarioRun 6) 0 200).trace ∧
      ∃ t ∈ (observerTrigger (scenarioRun 6) 0 200).timers,
        t.kind = TimerKind.typeStep 0 ∧
        t.due = 200 + 0 * (scenarioRun 6).cfg.staggerDelay) :=
  ⟨(C3_retrigger_resets (scenarioRun 6) 0 200 (by unfold loopPtrInv; decide)).1
      ⟨8, 200, TimerKind.typeStep 0⟩ (by decide) 0 (by decide),
   (C3_retrigger_resets (scenarioRun 6) 0 200 (by unfold loopPtrInv; decide)).2
      0 (by decide) (Item.mk ['H', 'i'] ['H', 'i'] true true false 0 0 (some 6))
      (by decide) rfl rfl⟩

/-- Claim C5: in every reachable state the revealed length is bounded by
the target length; a single step never decreases it; from an empty
prefix, `n ≤ len(fullText)` healthy steps reveal exactly the first `n`
characters — so the full text is reached in exactly `len` steps, one
character per step, and never earlier. -/
theorem C5_monotonic_reveal :
    (∀ (cfg : Config) (s : Engine), Reachable cfg s →
      ∀ (i : Nat) (e : Item), s.elements[i]? = some e →
        e.currentText.length ≤ e.fullText.length) ∧
    (∀ (cfg : Config) (s : Engine), Reachable cfg s →
      ∀ (now i : Nat) (e e' : Item), s.elements[i]? = some e →
        (typeText s now i).elements[i]? = some e' →
        e.currentText.length ≤ e'.currentText.length) ∧
    (∀ (s : Engine) (now i : Nat) (e : Item),
      s.elements[i]? = some e → e.isVisible = true → e.alive = true →
      e.writeFails = false → e.currentText = [] →
      ∀ n : Nat, n ≤ e.fullText.length →
        ((fun st => typeText st now i)^[n] s).elements[i]? =
          some { e with currentText := e.fullText.take n }) ∧
    (∀ (s : Engine) (now i : Nat) (e : Item),
      s.elements[i]? = some e → e.isVisible = true → e.alive = true →
      e.writeFails = false → e.currentText = [] →
      ∀ m : Nat, m < e.fullText.length →
        ∀ e' : Item,
          ((fun st => typeText st now i)^[m] s).elements[i]? = some e' →
          e'.currentText ≠ e.fullText) := by
  refine ⟨?_, ?_, ?_, ?_⟩
  · intro cfg s h i e hget
    exact ((engineInv h).2.1 i e hget).length_le
  · intro cfg s h now i e e' hget hget'
    have hpre := (engineInv h).2.1
    cases hvis : e.isVisible with
    | false =>
      rw [typeText_guard hget (Or.inl hvis), hget] at hget'
      cases Option.some_inj.mp hget'
      exact Nat.le_refl _
    | true =>
    cases halive : e.alive with
    | false =>
      rw [typeText_guard hget (Or.inr halive), hget] at hget'
      cases Option.some_inj.mp hget'
      exact Nat.le_refl _
    | true =>
    by_cases hlt : e.currentText.length < e.fullText.length
    · by_cases hwf : e.writeFails = true
      · have h2 : (typeText s now i).elements[i]? =
            some { e with currentText :=
              match e.fullText[e.currentText.length]? with
              | some c => e.currentText ++ [c]
              | none => e.currentText } := by
          rw [typeText_typing_fail_raw hget hvis halive hlt hwf]
          exact setItem_get_eq _ _ _ (getElem?_some_lt hget)
        rw [h2] at hget'
        cases Option.some_inj.mp hget'
        rcases hm : e.fullText[e.currentText.length]? with _ | c
        · simp [hm]
        · simp [hm]
      · have hcur := List.prefix_iff_eq_take.mp (hpre i e hget)
        have h2 : (typeText s now i).elements[i]? =
            some { e with currentText := e.fullText.take (e.currentText.length + 1) } := by
          rw [typeText_typing now hget hvis halive hcur hlt, if_neg hwf]
          exact setItem_get_eq _ _ _ (getElem?_some_lt hget)
        rw [h2] at hget'
        cases Option.some_inj.mp hget'
        show e.currentText.length ≤ (e.fullText.take (e.currentText.length + 1)).length
        rw [List.length_take]
        omega
    · by_cases hwf : e.writeFails = true
      · rw [typeText_complete_fail_raw hget hvis halive hlt hwf, hget] at hget'
        cases Option.some_inj.mp hget'
        exact Nat.le_refl _
      · rw [typeText_complete hget hvis halive hlt, if_neg hwf] at hget'
        by_cases harm :
            ((slideItemsOf s e.slideElement).all (fun j =>
              match s.elements[j]? with
              | some e2 => e2.currentText.length == e2.fullText.length
              | none => true)) = true ∧ e.loopTimeout = none
        · rw [if_pos harm] at hget'
          obtain ⟨_, _, _, _, _, hrel, _⟩ :=
            armLoop_spec now (slideItemsOf s e.slideElement)
              (addTrace s now i e.fullText)
          rcases hrel i e' hget' with ⟨e2, he2, hrel2⟩
          have he2' : s.elements[i]? = some e2 := he2
          rw [hget] at he2'
          cases Option.some_inj.mp he2'
          have hcc : e'.currentText = e.currentText := by rw [hrel2]
          rw [hcc]
        · rw [if_neg harm] at hget'
          have hget'' : s.elements[i]? = some e' := hget'
          rw [hget] at hget''
          cases Option.some_inj.mp hget''
          exact Nat.le_refl _
  · intro s now i e hget hvis halive hwf hc n hn
    have hcur : e.currentText = e.fullText.take 0 := by
      rw [List.take_zero]
      exact hc
    have hres := typeText_iter now i n 0 s e hget hvis halive hwf hcur (by omega)
    rw [Nat.zero_add] at hres
    exact hres
  · intro s now i e hget hvis halive hwf hc m hm e' hget'
    have hcur : e.currentText = e.fullText.take 0 := by
      rw [List.take_zero]
      exact hc
    have hiter := typeText_iter now i m 0 s e hget hvis halive hwf hcur (by omega)
    rw [Nat.zero_add] at hiter
    rw [hiter] at hget'
    cases Option.some_inj.mp hget'
    intro hEq
    have hEq' : e.fullText.take m = e.fullText := hEq
    have hlen := congrArg List.length hEq'
    rw [List.length_take] at hlen
    omega

/-- Witness for C5: two healthy steps on the triggered `"Hi"` element
reveal exactly `"Hi"`; the state bound and monotonicity at the same
input. -/
theorem C5_witness :
    ((fun st => typeText st 30 0)^[2] (scenarioRun 0)).elements[0]? =
      some { fullText := ['H', 'i'], currentText := ['H', 'i'],
             isVisible := true, alive := true, writeFails := false,
             slideElement := 0, staggerIndex := 0, loopTimeout := none } ∧
    (2 : Nat) ≤ 2 :=
  ⟨by
    have hres := C5_monotonic_reveal.2.2.1 (scenarioRun 0) 30 0
      { fullText := ['H', 'i'], currentText := [], isVisible := true,
        alive := true, writeFails := false, slideElement := 0,
        staggerIndex := 0, loopTimeout := none }
      (by decide) rfl rfl rfl rfl 2 (by decide)
    exact hres,
   Nat.le_refl 2⟩

/-- Claim C6: a step in which the element is invisible or its node is
gone aborts with the state untouched (no write, no timer); a step whose
sink write throws is caught — it schedules nothing, writes nothing,
leaves the handle set alone, and leaves every other element's state
untouched. -/
theorem C6_step_guard_and_isolation :
    (∀ (s : Engine) (now i : Nat) (e : Item), s.elements[i]? = some e →
      (e.isVisible = false ∨ e.alive = false) → typeText s now i = s) ∧
    (∀ (s : Engine) (now i : Nat) (e : Item), s.elements[i]? = some e →
      e.isVisible = true → e.alive = true → e.writeFails = true →
      (typeText s now i).timers = s.timers ∧
      (typeText s now i).trace = s.trace ∧
      (typeText s now i).timeoutIds = s.timeoutIds ∧
      (∀ j : Nat, j ≠ i → (typeText s now i).elements[j]? = s.elements[j]?)) := by
  refine ⟨?_, ?_⟩
  · intro s now i e hget hg
    exact typeText_guard hget hg
  · intro s now i e hget hvis halive hwf
    by_cases hlt : e.currentText.length < e.fullText.length
    · rw [typeText_typing_fail_raw hget hvis halive hlt hwf]
      exact ⟨rfl, rfl, rfl, fun j hj => setItem_get_ne _ _ _ _ (fun h => hj h.symm)⟩
    · rw [typeText_complete_fail_raw hget hvis halive hlt hwf]
      exact ⟨rfl, rfl, rfl, fun j _ => rfl⟩

/-- Witness for C6: a not-yet-visible element is untouched by a step; a
step on the throwing element of `failTriggered` schedules nothing and
leaves the other element alone. -/
theorem C6_witness :
    typeText scenarioInit 5 0 = scenarioInit ∧
    ((typeText failTriggered 35 0).timers = failTriggered.timers ∧
     (typeText failTriggered 35 0).trace = failTriggered.trace ∧
     (typeText failTriggered 35 0).timeoutIds = failTriggered.timeoutIds ∧
     (typeText failTriggered 35 0).elements[1]? = failTriggered.elements[1]?) :=
  ⟨C6_step_guard_and_isolation.1 scenarioInit 5 0
      (Item.mk ['H', 'i'] [] false true false 0 0 none) (by decide) (Or.inl rfl),
   (C6_step_guard_and_isolation.2 failTriggered 35 0
      (Item.mk ['H', 'i'] [] true true true 0 0 none) (by decide) rfl rfl rfl).1,
   (C6_step_guard_and_isolation.2 failTriggered 35 0
      (Item.mk ['H', 'i'] [] true true true 0 0 none) (by decide) rfl rfl rfl).2.1,
   (C6_step_guard_and_isolation.2 failTriggered 35 0
      (Item.mk ['H', 'i'] [] true true true 0 0 none) (by decide) rfl rfl rfl).2.2.1,
   (C6_step_guard_and_isolation.2 failTriggered 35 0
      (Item.mk ['H', 'i'] [] true true true 0 0 none) (by decide) rfl rfl rfl).2.2.2
     1 (by decide)⟩

/-- Claim C9: a visibility trigger for group `g` leaves every element of
other groups untouched, and every timer it adds is a staggered start for
an element of group `g`. -/
theorem C9_no_cross_group :
    ∀ (s : Engine) (g now j : Nat) (e : Item),
      s.elements[j]? = some e → e.slideElement ≠ g →
      (observerTrigger s g now).elements[j]? = some e ∧
      (∀ t ∈ (observerTrigger s g now).timers,
        t ∈ s.timers ∨ ∃ j' : Nat, j' ∈ slideItemsOf s g ∧
          t.kind = TimerKind.typeStep j' ∧
          ∃ e' : Item, s.elements[j']? = some e' ∧ e'.slideElement = g) := by
  intro s g now j e hget hne
  simp only [observerTrigger]
  obtain ⟨hcC, heC, htrC, hnC, hsubC, hidsC⟩ := clearLoops_spec (slideItemsOf s g) s
  obtain ⟨_, _, hfrS, _, hnewS, _, _, _, _⟩ :=
    startItems_spec now (slideItemsOf s g) (clearLoops (slideItemsOf s g) s)
  have hnotm : j ∉ slideItemsOf s g := by
    intro hmem
    rcases mem_slideItemsOf.mp hmem with ⟨e2, he2, hs2⟩
    rw [hget] at he2
    cases Option.some_inj.mp he2
    exact hne hs2
  refine ⟨?_, ?_⟩
  · rw [hfrS j hnotm, heC]
    exact hget
  · intro t ht
    rcases hnewS t ht with hmid | ⟨j', hj', hk'⟩
    · exact Or.inl (hsubC t hmid)
    · rcases mem_slideItemsOf.mp hj' with ⟨e', he', hs'⟩
      exact Or.inr ⟨j', hj', hk', e', he', hs'⟩

/-- Witness for C9: triggering slide 0 of `twoGroups` leaves slide 7's
element untouched. -/
theorem C9_witness :
    (observerTrigger twoGroups 0 0).elements[1]? =
      some (Item.mk ['B'] [] false true false 7 0 none) ∧
    ((⟨0, 0, TimerKind.typeStep 0⟩ : Timer) ∈ twoGroups.timers ∨
      ∃ j' : Nat, j' ∈ slideItemsOf twoGroups 0 ∧
        (⟨0, 0, TimerKind.typeStep 0⟩ : Timer).kind = TimerKind.typeStep j' ∧
        ∃ e' : Item, twoGroups.elements[j']? = some e' ∧ e'.slideElement = 0) :=
  ⟨(C9_no_cross_group twoGroups 0 0 1
      (Item.mk ['B'] [] false true false 7 0 none) (by decide) (by decide)).1,
   (C9_no_cross_group twoGroups 0 0 1
      (Item.mk ['B'] [] false true false 7 0 none) (by decide) (by decide)).2
     ⟨0, 0, TimerKind.typeStep 0⟩ (by decide)⟩

/-- Claim C10: registration tracks only elements whose directive value
is non-empty: every tracked element's target text is non-empty and comes
from a directive-bearing element with that (non-empty) value and a
resolvable container — so an empty-valued directive creates no animation
state at all. -/
theorem C10_empty_directive_untracked :
    ∀ (doms : List DomElem) (sp : ItemSpec), sp ∈ initElements doms →
      sp.fullText ≠ [] ∧
      ∃ d ∈ doms, d.container = some sp.slideElement ∧
        d.value = sp.fullText := by
  intro doms sp hsp
  unfold initElements at hsp
  rcases List.mem_flatten.mp hsp with ⟨sub, hsub, hmem⟩
  rcases List.mem_map.mp hsub with ⟨c, hc, rfl⟩
  rcases List.mem_filterMap.mp hmem with ⟨p, hp, hf⟩
  by_cases hemp : p.2.value.isEmpty
  · rw [if_pos hemp] at hf
    exact Option.noConfusion hf
  · rw [if_neg hemp] at hf
    cases Option.some_inj.mp hf
    have hd : p.2 ∈ doms.filter (fun d => d.container == some c) :=
      List.snd_mem_of_mem_enum hp
    rcases List.mem_filter.mp hd with ⟨hdm, hdc⟩
    refine ⟨?_, p.2, hdm, ?_, rfl⟩
    · intro hnil
      exact hemp (by rw [show p.2.value = ([] : List Char) from hnil]; rfl)
    · simpa using hdc

/-- Witness for C10: with one non-empty and one empty directive in the
same container, only the non-empty one is tracked. -/
theorem C10_witness :
    (⟨['A'], true, false, 3, 0⟩ : ItemSpec).fullText ≠ [] ∧
    ∃ d ∈ [DomElem.mk ['A'] (some 3), DomElem.mk [] (some 3)],
      d.container = some (⟨['A'], true, false, 3, 0⟩ : ItemSpec).slideElement ∧
      d.value = (⟨['A'], true, false, 3, 0⟩ : ItemSpec).fullText :=
  C10_empty_directive_untracked [⟨['A'], some 3⟩, ⟨[], some 3⟩]
    ⟨['A'], true, false, 3, 0⟩ (by decide)

end Typewriter
